import Mathlib

/-!
Verification development for the `scode` runtime sound manager
(`src/example/public/sound-manager.js`).

The JavaScript is shallowly embedded: the manager instance becomes the
`Manager` structure, `Map`s become insertion-ordered association lists,
`AudioBuffer` objects live in an explicit `heap` (so object identity is the
heap index), and the asynchronous fetch/decode promise chain of `loadItem`
is split into its synchronous start phase (`loadItemStart`, which installs
the single-flight ticket) and its completion phase (`loadItemComplete`,
which runs the `.then`/`.catch` handlers once the fetch and decode settle).
-/

namespace Scode

/-- JS state constant `RUNNING = 0` (sound-manager.js line 13). -/
def RUNNING : Nat := 0

/-- JS state constant `CLOSING = 1` (sound-manager.js line 15). -/
def CLOSING : Nat := 1

/-- JS state constant `DISPOSED = 2` (sound-manager.js line 17). -/
def DISPOSED : Nat := 2

/-- An atlas item: the 4-tuple `[source_name, file_name, sample_count,
language_tag]` indexed in the source by `SOURCE=0, FILE=1, NUMS=2, LANG=3`. -/
structure AtlasItem where
  source : String
  file : String
  nums : Nat
  lang : String
deriving DecidableEq, Repr

/-- An `AudioBuffer`: channel data is a list of channels, each a list of
sample frames (samples are modelled as integers; the claims under proof do
not depend on floating-point rounding). -/
structure Buf where
  numberOfChannels : Nat
  length : Nat
  sampleRate : Nat
  data : List (List Int)
deriving DecidableEq, Repr

/-- Events dispatched by the manager (`dispatchEvent` calls in the source). -/
inductive LoadEvent where
  | atlasloaded
  | languagechanged
  | packagechanged
  | loadpathchange
  | soundloaded (file : String)
  | soundloaderror (file : String)
  | reloaded
deriving DecidableEq, Repr

/-- The value a `loadItem` promise chain settles with: `undef` models a JS
promise resolved with `undefined`, `nullv` resolution with `null`, and
`buf` resolution with the `AudioBuffer` whose heap index is given. -/
inductive TicketValue where
  | undef
  | nullv
  | buf (bid : Nat)
deriving DecidableEq, Repr

/-- Insertion-ordered association list lookup, modelling `Map.get` /
JS object property lookup. -/
def lookupKV {α : Type} : List (String × α) → String → Option α
  | [], _ => none
  | (k, v) :: rest, key => if key = k then some v else lookupKV rest key

/-- Insertion-ordered association list update, modelling `Map.set`:
an existing key keeps its position, a new key is appended. -/
def setKV {α : Type} : List (String × α) → String → α → List (String × α)
  | [], key, v => [(key, v)]
  | (k, w) :: rest, key, v =>
      if key = k then (k, v) :: rest else (k, w) :: setKV rest key v

/-- Association list removal, modelling `Map.delete`. -/
def eraseKV {α : Type} (m : List (String × α)) (key : String) :
    List (String × α) :=
  m.filter (fun p => p.1 ≠ key)

theorem lookupKV_setKV_eq {α : Type} (m : List (String × α)) (k : String)
    (v : α) : lookupKV (setKV m k v) k = some v := by
  induction m with
  | nil => simp [setKV, lookupKV]
  | cons p rest ih =>
      obtain ⟨k0, w⟩ := p
      by_cases h : k = k0
      · simp [setKV, lookupKV, h]
      · simp [setKV, lookupKV, h, ih]

theorem lookupKV_setKV_ne {α : Type} (m : List (String × α)) (k k2 : String)
    (v : α) (h : k2 ≠ k) : lookupKV (setKV m k v) k2 = lookupKV m k2 := by
  induction m with
  | nil => simp [setKV, lookupKV, h]
  | cons p rest ih =>
      obtain ⟨k0, w⟩ := p
      by_cases h0 : k = k0
      · subst h0
        simp [setKV, lookupKV, h]
      · by_cases h2 : k2 = k0
        · simp [setKV, lookupKV, h0, h2]
        · simp [setKV, lookupKV, h0, h2, ih]

/-- Split a character list at every occurrence of `c`, modelling JS
`String.prototype.split`. -/
def splitCharAux (c : Char) : List Char → List Char → List (List Char)
  | acc, [] => [acc.reverse]
  | acc, x :: xs =>
      if x = c then acc.reverse :: splitCharAux c [] xs
      else splitCharAux c (x :: acc) xs

/-- Remove the first occurrence of the two-character pattern `ch`,
modelling `file.replace("ch", "")` in `numChannels`. -/
def stripChOnce : List Char → List Char
  | [] => []
  | 'c' :: 'h' :: rest => rest
  | x :: rest => x :: stripChOnce rest

/-- Parse a non-empty all-digit character list as a natural number,
modelling JS `Number(...)` on the digit strings produced by the encoder's
`{bitrate}k.{channels}ch.{hash}` file-name format (on a non-numeric string
`Number` yields `NaN`, modelled as `none`). -/
def digitsToNat : List Char → Option Nat
  | [] => none
  | cs =>
      if cs.all (fun c => c.isDigit) then
        some (cs.foldl (fun n c => n * 10 + (c.toNat - '0'.toNat)) 0)
      else none

/-- The `SoundManager` instance state (sound-manager.js lines 53-90).
`Map` fields become insertion-ordered association lists; `AudioBuffer`
objects live in `heap` so that the heap index plays the role of the JS
object reference; `promises` maps a file name to its in-flight decode
ticket number, and `nextTicket` numbers the tickets.  `events` logs every
`dispatchEvent` call in order, `listeners` records whether the listeners
installed on the `DisposableEventTarget` are still attached, and
`cleanups` records the files whose `promise.finally` cleanup continuation
was attached by `disposeItem` (its later execution is modelled by the
`RtState` transition system below). -/
structure Manager where
  atlas : List (String × List AtlasItem)
  cpn : String
  pkg : List AtlasItem
  path : String
  language : String
  extension : String
  priorities : List String
  buffers : List (String × Nat)
  heap : List Buf
  promises : List (String × Nat)
  nextTicket : Nat
  sampleRate : Nat
  status : Nat
  events : List LoadEvent
  listeners : Bool
  cleanups : List String
deriving DecidableEq, Repr

/-- Model of `context.createBuffer(nc, len, rate)`: an allocated, silent
buffer of the requested shape. -/
def createBuffer (nc len rate : Nat) : Buf :=
  ⟨nc, len, rate, List.replicate nc (List.replicate len 0)⟩

/-- Model of `numChannels` (lines 385-391): `Number(file.split(".")[1].replace("ch", ""))`
wrapped in `try`/`catch`.  The `catch` fires when `split(".")[1]` is
`undefined` (modelled by the `none` branch); a parse producing `NaN`
(malformed names, which also make the subsequent `createBuffer` call
throw) is likewise modelled as `none` — the claims only evaluate
well-formed encoder file names. -/
def numChannels (file : String) : Option Nat :=
  match (splitCharAux '.' [] file.toList).get? 1 with
  | none => none
  | some cs => digitsToNat (stripChOnce cs)

/-- The match predicate of `findItemBySourceName` (line 423):
`item[SOURCE] === sourceName && (item[LANG] === NO_LANG || item[LANG] === language)`. -/
def itemMatches (sourceName language : String) (item : AtlasItem) : Bool :=
  item.source == sourceName && (item.lang == "_" || item.lang == language)

/-- The `pkg.find(...)` call inside `findItemBySourceName` (lines 422-424). -/
def findInPkg (pkg : List AtlasItem) (sourceName language : String) :
    Option AtlasItem :=
  pkg.find? (itemMatches sourceName language)

/-- Model of `getPackage` (lines 197-203): empty when disposed, else
`this.atlas[name] ?? []`. -/
def getPackage (m : Manager) (name : String) : List AtlasItem :=
  if m.status = DISPOSED then [] else (lookupKV m.atlas name).getD []

/-- Model of `findItemBySourceName` (lines 418-425). -/
def findItemBySourceName (m : Manager) (sourceName : String)
    (packageName : String := m.cpn) (language : String := m.language) :
    Option AtlasItem :=
  if m.status ≠ RUNNING then none
  else findInPkg (getPackage m packageName) sourceName language

/-- Model of `findItemByFileName` (lines 439-445); called with one argument from
`loadFile`, so the `packageName` parameter defaults (via JS `undefined`)
to the current package inside `getPackage`. -/
def findItemByFileName (m : Manager) (fileName : String)
    (packageName : Option String := none) : Option AtlasItem :=
  if m.status ≠ RUNNING then none
  else (getPackage m (packageName.getD m.cpn)).find? (fun it => it.file == fileName)

/-- Model of `getFileName` (lines 457-477).  The source evaluates
`this.findItemBySourceName(...)[FILE]`; when the find misses it returns
`undefined` and the member access throws a `TypeError`, modelled as
`.error ()`.  When the find hits, `file` is the item's string `file_name`,
so `file !== undefined` holds and the function returns at line 464; the
cross-package loop at lines 467-473 is therefore unreachable (and each of
its iterations would itself evaluate `undefined[FILE]` on a miss, because
it passes a package value where `getPackage` expects a package name). -/
def getFileName (m : Manager) (sourceName : String)
    (packageName : String := m.cpn) (language : String := m.language) :
    Except Unit (Option String) :=
  if m.status ≠ RUNNING then .ok none
  else
    match findItemBySourceName m sourceName packageName language with
    | none => .error ()
    | some item => .ok (some item.file)

/-- The synchronous start phase of `loadItem` (lines 507-536): the state
guard, the single-flight ticket lookup, and — on a miss — the installation
of a fresh ticket in `promises` together with the `fetch` call.  Returns
the new state, the ticket the caller's promise is (`some t`) or an
immediate `null` resolution (`none`), and whether a network fetch was
issued. -/
def loadItemStart (m : Manager) (item : AtlasItem) :
    Manager × Option Nat × Bool :=
  if m.status ≠ RUNNING then (m, none, false)
  else
    match lookupKV m.promises item.file with
    | some t => (m, some t, false)
    | none =>
        let t := m.nextTicket
        ({ m with promises := setKV m.promises item.file t,
                  nextTicket := t + 1 }, some t, true)

/-- Outcome of the `fetch(...).then(arrayBuffer).then(decodeAudioData)`
first stage of the `loadItem` chain: either decoded PCM or a fetch/decode
rejection. -/
inductive FetchResult where
  | success (decoded : Buf)
  | failure
deriving DecidableEq, Repr

/-- Channel surgery of `fill` (lines 786-802): for the first `nc` channels,
replace the first `ns` frames of the target channel with the source
channel's frames; remaining channels are untouched.  (Both the legacy
per-sample loop and the `copyToChannel` branch copy
`min(target.length, source.length)` frames at offset 0 for
`min(target.channels, source.channels)` channels.) -/
def fillData : Nat → Nat → List (List Int) → List (List Int) → List (List Int)
  | _, _, [], _ => []
  | 0, _, tch :: trest, _ => tch :: trest
  | _ + 1, _, tch :: trest, [] => tch :: trest
  | nc + 1, ns, tch :: trest, sch :: srest =>
      (sch.take ns ++ tch.drop ns) :: fillData nc ns trest srest

/-- Model of `fill(target, source)` (lines 786-802): in-place overwrite of the
target buffer's channel data with the source's, up to
`min(target.numberOfChannels, source.numberOfChannels)` channels and
`min(target.length, source.length)` frames. -/
def fill (target source : Buf) : Buf :=
  { target with
      data := fillData (min target.numberOfChannels source.numberOfChannels)
        (min target.length source.length) target.data source.data }

/-- The completion phase of the `loadItem` promise chain (lines 512-533),
run when the fetch/decode settles.  On success: the `decoded =>` handler
reuses a pre-existing cache entry as `target` (else allocates a fresh
buffer of shape `(decoded.numberOfChannels, item[NUMS], sampleRate)`),
re-`set`s it in `buffers`, fills it in place, and the following
`.then(_ => dispatchEvent("soundloaded"))` handler makes the chain settle
with `undefined`.  On failure: the `.catch` handler logs a warning and
resolves with `this.buffers.get(file) ?? null`, touching no state and
dispatching no event. -/
def loadItemComplete (m : Manager) (item : AtlasItem) (res : FetchResult) :
    Manager × TicketValue :=
  match res with
  | .success decoded =>
      match lookupKV m.buffers item.file with
      | some bid =>
          ({ m with buffers := setKV m.buffers item.file bid,
                    heap := m.heap.set bid
                      (fill (m.heap.getD bid (createBuffer 0 0 0)) decoded),
                    events := m.events ++ [.soundloaded item.file] }, .undef)
      | none =>
          let bid := m.heap.length
          let target := createBuffer decoded.numberOfChannels item.nums m.sampleRate
          ({ m with buffers := setKV m.buffers item.file bid,
                    heap := m.heap ++ [fill target decoded],
                    events := m.events ++ [.soundloaded item.file] }, .undef)
  | .failure =>
      (m, match lookupKV m.buffers item.file with
          | some bid => .buf bid
          | none => .nullv)

/-- The synchronous start phase of `loadFile` (lines 486-500). -/
def loadFileStart (m : Manager) (file : String) :
    Manager × Option Nat × Bool :=
  if m.status ≠ RUNNING then (m, none, false)
  else
    match lookupKV m.promises file with
    | some t => (m, some t, false)
    | none =>
        match findItemByFileName m file with
        | none =>
            ({ m with events := m.events ++ [.soundloaderror file] },
              none, false)
        | some item => loadItemStart m item

/-- The synchronous phase of `requestBufferAsync` (lines 325-331): the
state guard, the `getFileName` resolution — whose `TypeError` on a
within-package miss rejects the async function's promise, modelled by
`.error ()` — and the hand-off to `loadFile`. -/
def requestBufferAsyncStart (m : Manager) (name : String) :
    Except Unit (Manager × Option Nat × Bool) :=
  if m.status ≠ RUNNING then .ok (m, none, false)
  else
    match getFileName m name with
    | .error e => .error e
    | .ok none => .ok (m, none, false)
    | .ok (some file) => .ok (loadFileStart m file)

/-- Model of `requestBufferSync` (lines 350-375).  Returns the new state and the
heap index of the returned buffer (or `none` for a `null` return). -/
def requestBufferSync (m : Manager) (name : String) : Manager × Option Nat :=
  if m.status ≠ RUNNING then (m, none)
  else
    match findItemBySourceName m name with
    | none => (m, none)
    | some item =>
        match lookupKV m.buffers item.file with
        | some bid => (m, some bid)
        | none =>
            match numChannels item.file with
            | none => (m, none)
            | some nc =>
                let bid := m.heap.length
                let silence := createBuffer nc item.nums m.sampleRate
                let m1 := { m with heap := m.heap ++ [silence],
                                   buffers := setKV m.buffers item.file bid }
                ((loadItemStart m1 item).1, some bid)

/-- Index a list of priority source names, modelling
`priorities.map((source, index) => [source, index])` (line 810). -/
def withIdx : Nat → List String → List (Nat × String)
  | _, [] => []
  | n, s :: rest => (n, s) :: withIdx (n + 1) rest

/-- Model of `new Map(priorities.map((source, index) => [source, index]))`
(line 810): later entries for a duplicated source name overwrite earlier
ones, as `Map` construction does. -/
def priorityIndex (ps : List String) : List (String × Nat) :=
  (withIdx 0 ps).foldl (fun acc p => setKV acc p.2 p.1) []

/-- The sort key used by the comparator at lines 812-814:
`priorityIndex.has(s) ? priorityIndex.get(s) : Infinity`.  Every real rank
is `< ps.length`, so `ps.length` faithfully stands in for `Infinity`
(and the comparator's `Infinity - Infinity = NaN` case is treated as `0`
by the ES2019 sort specification, i.e. as equal keys — exactly `≤` on
this key). -/
def itemRank (ps : List String) (item : AtlasItem) : Nat :=
  (lookupKV (priorityIndex ps) item.source).getD ps.length

/-- Stable insertion of `a` into `l`: `a` is placed before the first
element `b` with `le a b` (earlier elements with an equal key stay in
front, matching ES2019 stable sort semantics). -/
def orderedInsertB {α : Type} (le : α → α → Bool) (a : α) : List α → List α
  | [] => [a]
  | b :: l => if le a b then a :: b :: l else b :: orderedInsertB le a l

/-- Stable sort with respect to the boolean total preorder `le`; models
ES2019 `Array.prototype.sort` with a consistent comparator, whose output
is uniquely determined by stability. -/
def insertionSortB {α : Type} (le : α → α → Bool) : List α → List α
  | [] => []
  | a :: l => orderedInsertB le a (insertionSortB le l)

/-- Model of `sortItems(items, priorities)` (lines 809-816): stable sort of the
items by priority rank (non-priority items rank as `Infinity`). -/
def sortItems (items : List AtlasItem) (ps : List String) : List AtlasItem :=
  insertionSortB (fun a b => itemRank ps a ≤ itemRank ps b) items

/-- The order in which `loadItems` (lines 546-549) issues its loads:
`this.priorities.length > 0 ? sortItems([...items], this.priorities) : items`. -/
def loadItemsOrder (m : Manager) (items : List AtlasItem) : List AtlasItem :=
  if 0 < m.priorities.length then sortItems items m.priorities else items

/-- Model of `loadItems` (lines 546-549): run `loadItem` over the (possibly
priority-sorted copy of the) item list, threading the manager state and
collecting each call's resolution ticket. -/
def loadItemsStartM (m : Manager) (items : List AtlasItem) :
    Manager × List (Option Nat) :=
  (loadItemsOrder m items).foldl
    (fun acc it =>
      let r := loadItemStart acc.1 it
      (r.1, acc.2 ++ [r.2.1]))
    (m, [])

/-- Model of `loadSources` (lines 558-561): resolve each source name and load the
found items (no state guard of its own; `findItemBySourceName` returns
`undefined` for every name when not running). -/
def loadSourcesStart (m : Manager) (sources : List String) :
    Manager × List (Option Nat) :=
  loadItemsStartM m (sources.filterMap (fun s => findItemBySourceName m s))

/-- Model of `getPackageNames` (lines 232-241). -/
def getPackageNames (m : Manager) (names : Option (List String) := none) :
    List String :=
  if m.status = DISPOSED then []
  else
    match names with
    | some ns => ns.filter (fun n => (lookupKV m.atlas n).isSome)
    | none => m.atlas.map (fun p => p.1)

/-- Model of `getPackages` (lines 216-222). -/
def getPackages (m : Manager) (names : Option (List String) := none) :
    List (List AtlasItem) :=
  if m.status = DISPOSED then []
  else (getPackageNames m names).map (fun n => getPackage m n)

/-- Model of `loadPackageName` (lines 568-573). -/
def loadPackageNameStart (m : Manager) (name : Option String := none) :
    Manager × List (Option Nat) :=
  if m.status ≠ RUNNING then (m, [])
  else loadItemsStartM m (getPackage m (name.getD m.cpn))

/-- Model of `loadPackageNames` (lines 581-586); the per-package result lists are
kept nested, as `Promise.all` receives them. -/
def loadPackageNamesStart (m : Manager) (names : Option (List String) := none) :
    Manager × List (List (Option Nat)) :=
  if m.status ≠ RUNNING then (m, [])
  else
    (getPackageNames m names).foldl
      (fun acc n =>
        let r := loadPackageNameStart acc.1 (some n)
        (r.1, acc.2 ++ [r.2]))
      (m, [])

/-- Model of `loadEverything` (lines 593-598). -/
def loadEverythingStart (m : Manager) : Manager × List (List (Option Nat)) :=
  if m.status ≠ RUNNING then (m, []) else loadPackageNamesStart m none

/-- Model of `loadLanguage` (lines 609-620): for each selected package, load the
items carrying exactly the requested language tag. -/
def loadLanguageStart (m : Manager) (language : Option String := none)
    (packageNames : Option (List String) := none) :
    Manager × List (List (Option Nat)) :=
  if m.status ≠ RUNNING then (m, [])
  else
    (getPackages m (some ((packageNames).getD [m.cpn]))).foldl
      (fun acc pack =>
        let r := (pack.filter
            (fun it => it.lang = language.getD m.language)).foldl
          (fun acc2 it =>
            let r2 := loadItemStart acc2.1 it
            (r2.1, acc2.2 ++ [r2.2.1]))
          (acc.1, ([] : List (Option Nat)))
        (r.1, acc.2 ++ [r.2]))
      (m, [])

/-- Model of `loadLanguages` (lines 628-633). -/
def loadLanguagesStart (m : Manager) (languages : Option (List String) := none)
    (packageNames : Option (List String) := none) :
    Manager × List (List (List (Option Nat))) :=
  if m.status ≠ RUNNING then (m, [])
  else
    ((languages).getD [m.language]).foldl
      (fun acc l =>
        let r := loadLanguageStart acc.1 (some l) packageNames
        (r.1, acc.2 ++ [r.2]))
      (m, [])

/-- Model of `loadPriorityList` (lines 643-645). -/
def loadPriorityListStart (m : Manager) : Manager × List (Option Nat) :=
  loadSourcesStart m m.priorities

/-- First occurrence preserving de-duplication, modelling
`[...new Set(xs)]` (lines 277-281). -/
def jsSetDedup : List String → List String :=
  go []
where
  go : List String → List String → List String
    | _, [] => []
    | seen, x :: xs =>
        if x ∈ seen then go seen xs else x :: go (x :: seen) xs

/-- Model of `languages` (lines 273-282). -/
def languages (m : Manager) (name : Option String := none) : List String :=
  if m.status ≠ RUNNING then []
  else jsSetDedup ((getPackage m (name.getD m.cpn)).map (fun it => it.lang))

/-- Model of `setAtlas` (lines 126-132). -/
def setAtlas (m : Manager) (atlas : List (String × List AtlasItem)) : Manager :=
  if m.status ≠ RUNNING then m
  else { m with atlas := atlas, events := m.events ++ [.atlasloaded] }

/-- The synchronous phase of `loadAtlas` (lines 101-109): the state guard
and the decision to issue the atlas fetch (the completion, which stores
the fetched JSON and dispatches `atlasloaded`, happens when the fetch
settles and is not needed by the claims under proof). -/
def loadAtlasStart (m : Manager) : Manager × Bool :=
  if m.status ≠ RUNNING then (m, false) else (m, true)

/-- Model of `setLanguage` (lines 146-159). -/
def setLanguage (m : Manager) (language : String) : Manager × Bool :=
  if m.status ≠ RUNNING then (m, false)
  else if m.language = language then (m, false)
  else if language ∉ languages m then (m, false)
  else ({ m with language := language,
                 events := m.events ++ [.languagechanged] }, true)

/-- Model of `setPackageByName` (lines 174-187). -/
def setPackageByName (m : Manager) (name : String) : Manager × Bool :=
  if m.status ≠ RUNNING ∨ name = m.cpn then (m, false)
  else
    match lookupKV m.atlas name with
    | none => (m, false)
    | some pkg =>
        ({ m with cpn := name, pkg := pkg,
                  events := m.events ++ [.packagechanged] }, true)

/-- Model of `setLoadPath` (lines 293-299). -/
def setLoadPath (m : Manager) (path : String) : Manager :=
  if m.status ≠ RUNNING then m
  else { m with path := path, events := m.events ++ [.loadpathchange] }

/-- Model of `setPriorityList` (lines 311-313): note the absence of any lifecycle
state guard — the assignment runs in every state. -/
def setPriorityList (m : Manager) (sources : List String) : Manager :=
  { m with priorities := sources }

/-- Model of `disposeItem` (lines 652-666): delete the cached buffer; if a ticket
is in flight, delete it and attach the `finally` continuation that will
delete both entries again once the ticket settles (recorded in
`cleanups`; its execution is modelled by `RtState` below). -/
def disposeItem (m : Manager) (item : AtlasItem) : Manager :=
  if m.status = DISPOSED then m
  else
    let m1 := { m with buffers := eraseKV m.buffers item.file }
    match lookupKV m1.promises item.file with
    | none => m1
    | some _ =>
        { m1 with promises := eraseKV m1.promises item.file,
                  cleanups := m1.cleanups ++ [item.file] }

/-- Model of `disposePackage` (lines 673-679). -/
def disposePackage (m : Manager) (name : Option String := none) : Manager :=
  if m.status = DISPOSED then m
  else (getPackage m (name.getD m.cpn)).foldl disposeItem m

/-- Model of `disposePackages` (lines 686-692): `disposeItem` over every item of
every selected package (the `Promise.all` receives arrays of promises and
therefore resolves without awaiting them; the synchronous effects below
are all that happens before it resolves). -/
def disposePackages (m : Manager) (names : Option (List String) := none) :
    Manager :=
  if m.status = DISPOSED then m
  else (getPackages m names).foldl (fun acc pack => pack.foldl disposeItem acc) m

/-- Model of `disposeLanguage` (lines 700-715). -/
def disposeLanguage (m : Manager) (language : Option String := none)
    (packageNames : Option (List String) := none) : Manager :=
  if m.status = DISPOSED then m
  else
    (getPackages m packageNames).foldl
      (fun acc pack =>
        pack.foldl
          (fun acc2 it =>
            if it.lang = language.getD m.language then disposeItem acc2 it
            else acc2)
          acc)
      m

/-- Model of `dispose` (lines 721-735): guard, optional listener removal, the
`CLOSING` transition, the synchronous pass of `disposePackages`, and the
`finally` that sets `DISPOSED` (which runs when the — immediately
resolving — `Promise.all` settles). -/
def dispose (m : Manager) (disposeListeners : Bool := true) : Manager :=
  if m.status = DISPOSED then m
  else
    { disposePackages
        { m with status := CLOSING,
                 listeners := if disposeListeners then false else m.listeners }
        none
      with status := DISPOSED }

/-!
Array-identity model for `loadItems` (claim about mutation of the caller's
array).  JS arrays are mutable objects: `items.sort(...)` sorts in place
and returns the same array.  A store of arrays, indexed by allocation
order, stands in for the JS heap; `this.atlas[p]` is one such array. -/

/-- Execution of `sortItems` on the JS heap: `items.sort(cmp)` sorts the
array object in place and evaluates to the same array reference. -/
def sortItemsInPlace (store : List (List AtlasItem)) (id : Nat)
    (ps : List String) : List (List AtlasItem) × Nat :=
  (store.set id (sortItems (store.getD id []) ps), id)

/-- The argument handling of `loadItems` (line 547) on the JS heap: when a
priority list is configured, `[...items]` allocates a fresh copy and
`sortItems` sorts that copy in place; otherwise the original array is used
unsorted.  Returns the updated store and the element order in which the
loads are issued. -/
def loadItemsArrays (store : List (List AtlasItem)) (id : Nat)
    (ps : List String) : List (List AtlasItem) × List AtlasItem :=
  if 0 < ps.length then
    let copyId := store.length
    let store1 := store ++ [store.getD id []]
    let r := sortItemsInPlace store1 copyId ps
    (r.1, r.1.getD r.2 [])
  else (store, store.getD id [])

/-!
Event-loop model of disposal (`dispose`/`disposeItem` interacting with the
in-flight `loadItem` promise chains).  Execution is single-threaded; the
scheduler delivers, in some order, the pending continuations of each
in-flight file: first its decode-completion handler (lines 515-529, which
re-`set`s the buffer and dispatches `soundloaded`), then — once attached
by `disposeItem` — the `finally` cleanup (lines 661-664, which deletes
both map entries).  Only the map keys matter here. -/

/-- Runtime state for the disposal model: `buffers` and `promises` hold
the map keys; `inflight` pairs each in-flight file with whether its
decode-completion handler has already run; `cleanup` lists the files whose
`finally` continuation `disposeItem` attached; `dispatched` logs every
`soundloaded` dispatch and `observed` those dispatches that some listener
could observe. -/
structure RtState where
  buffers : List String
  promises : List String
  inflight : List (String × Bool)
  cleanup : List String
  listeners : Bool
  dispatched : List String
  observed : List String
deriving DecidableEq, Repr

/-- Key insertion of `Map.set` (idempotent on the key set). -/
def jsKeyInsert (l : List String) (f : String) : List String :=
  if f ∈ l then l else l ++ [f]

/-- Model of `disposeItem` in the runtime view: delete the buffer entry; if a
ticket is in flight, delete the promise entry and attach the `finally`
cleanup. -/
def rtDisposeItem (s : RtState) (f : String) : RtState :=
  let s1 := { s with buffers := s.buffers.filter (fun b => b ≠ f) }
  if f ∈ s1.promises then
    { s1 with promises := s1.promises.filter (fun p => p ≠ f),
              cleanup := s1.cleanup ++ [f] }
  else s1

/-- Model of `dispose()` in the runtime view: remove the listeners (the default
`disposeListeners = true`), then run `disposeItem` synchronously for every
atlas item.  The promise returned by `dispose` resolves without awaiting
the attached `finally` continuations, because `disposePackages` hands
`Promise.all` arrays of promises rather than promises. -/
def rtDispose (atlasFiles : List String) (s : RtState) : RtState :=
  atlasFiles.foldl rtDisposeItem { s with listeners := false }

/-- A schedulable continuation: the decode-completion handler of a file's
chain, or its `finally` cleanup. -/
inductive RtStep where
  | decodeDone (f : String)
  | finallyRun (f : String)
deriving DecidableEq, Repr

/-- Deliver one continuation.  A decode completion may only run once and
re-inserts the buffer entry (`this.buffers.set(file, target)` has no state
guard), dispatching `soundloaded`; the `finally` cleanup may only run
after the chain settled and deletes both entries.  Continuations that are
not pending leave the state unchanged. -/
def rtApply (s : RtState) : RtStep → RtState
  | .decodeDone f =>
      if (f, false) ∈ s.inflight then
        { s with buffers := jsKeyInsert s.buffers f,
                 inflight := s.inflight.map
                   (fun p => if p.1 = f then (f, true) else p),
                 dispatched := s.dispatched ++ [f],
                 observed := if s.listeners then s.observed ++ [f]
                             else s.observed }
      else s
  | .finallyRun f =>
      if (f, true) ∈ s.inflight ∧ f ∈ s.cleanup then
        { s with buffers := s.buffers.filter (fun b => b ≠ f),
                 promises := s.promises.filter (fun p => p ≠ f),
                 inflight := s.inflight.filter (fun p => p.1 ≠ f),
                 cleanup := s.cleanup.filter (fun c => c ≠ f) }
      else s

/-- Deliver a sequence of continuations in scheduler order. -/
def rtRun (s : RtState) (steps : List RtStep) : RtState :=
  steps.foldl rtApply s

/-- The constructor (lines 53-90) with its default arguments:
`packageName = "none"`, `path = "./encoded/"`, `language = NO_LANG`,
`extension = ".webm"`, `pkg = atlas[packageName] ?? []`, empty maps,
`RUNNING`. -/
def newSoundManager (atlas : List (String × List AtlasItem))
    (packageName : String := "none") (language : String := "_")
    (sampleRate : Nat := 48000) : Manager :=
  { atlas := atlas
    cpn := packageName
    pkg := (lookupKV atlas packageName).getD []
    path := "./encoded/"
    language := language
    extension := ".webm"
    priorities := []
    buffers := []
    heap := []
    promises := []
    nextTicket := 0
    sampleRate := sampleRate
    status := RUNNING
    events := []
    listeners := true
    cleanups := [] }

/-- Helper: `find?` returns the head of the first matching suffix. -/
theorem find?_append_first {α : Type} (p : α → Bool) (l1 : List α) (it : α)
    (l2 : List α) (hit : p it = true) (h1 : ∀ x ∈ l1, p x = false) :
    (l1 ++ it :: l2).find? p = some it := by
  induction l1 with
  | nil => simp [List.find?_cons, hit]
  | cons x xs ih =>
      have hx : p x = false := h1 x (by simp)
      have step : List.find? p (x :: (xs ++ it :: l2)) =
          List.find? p (xs ++ it :: l2) := by
        simp [List.find?_cons, hx]
      rw [List.cons_append, step]
      exact ih (fun y hy => h1 y (by simp [hy]))

/-- Helper: `find?` misses when no element matches. -/
theorem find?_none_of_all_false {α : Type} (p : α → Bool) (l : List α)
    (h : ∀ x ∈ l, p x = false) : l.find? p = none := by
  induction l with
  | nil => rfl
  | cons x xs ih =>
      have hx : p x = false := h x (by simp)
      have step : List.find? p (x :: xs) = List.find? p xs := by
        simp [List.find?_cons, hx]
      rw [step]
      exact ih (fun y hy => h y (by simp [hy]))

/-- Decidable equality for `Except`, required to evaluate the concrete
scenarios by `decide`. -/
instance {ε α : Type} [DecidableEq ε] [DecidableEq α] :
    DecidableEq (Except ε α) := fun a b =>
  match a, b with
  | .error e1, .error e2 =>
      if h : e1 = e2 then .isTrue (by rw [h])
      else .isFalse (fun hc => by cases hc; exact h rfl)
  | .error _, .ok _ => .isFalse (fun hc => by cases hc)
  | .ok _, .error _ => .isFalse (fun hc => by cases hc)
  | .ok v1, .ok v2 =>
      if h : v1 = v2 then .isTrue (by rw [h])
      else .isFalse (fun hc => by cases hc; exact h rfl)

/-- Spec scenario 3: an atlas whose current package `"a"` is empty while
the `"common"` package holds the requested sound. -/
def mFallback : Manager :=
  newSoundManager [("a", []), ("common", [⟨"bell", "B", 4, "_"⟩])] "a"

/-- C1.  The spec's cross-package fallback does not happen in the code:
on a within-package miss, `getFileName` evaluates
`this.findItemBySourceName(...)[FILE]` with the find returning
`undefined`, so the member access throws a `TypeError` before the
cross-package loop is reached (and each loop iteration would throw the
same way, besides passing a package value where a name is expected).
Consequently `requestBufferAsync` returns a rejected promise instead of
the fallback hit or `null` — even though the `"common"` package does
contain a matching item, as the third conjunct shows.  `requestBufferSync`
(which never calls `getFileName`) does return `null` without emitting an
event, as the claim says. -/
theorem getFileName_fallback_throws :
    getFileName mFallback "bell" = .error ()
  ∧ requestBufferAsyncStart mFallback "bell" = .error ()
  ∧ findInPkg ((lookupKV mFallback.atlas "common").getD []) "bell" "_" =
      some ⟨"bell", "B", 4, "_"⟩
  ∧ requestBufferSync mFallback "bell" = (mFallback, none) := by
  decide

/-- C2.  Within-package resolution is first-match over the stored order
with the predicate `source_name = s ∧ (language_tag = "_" ∨ language_tag
= l)`: (1) the first matching item of any decomposition is returned,
(2) a package with no matching item yields `undefined`, and (3) in
particular an item `(s, f, n, "_")` placed before any other match is
returned — its `file_name` wins regardless of the requested language. -/
theorem findItemBySourceName_first_match (m : Manager) (P : List AtlasItem)
    (pn s l : String) (hrun : m.status = RUNNING)
    (hpkg : lookupKV m.atlas pn = some P) :
    (∀ l1 it l2, P = l1 ++ it :: l2 → itemMatches s l it = true →
        (∀ x ∈ l1, itemMatches s l x = false) →
        findItemBySourceName m s pn l = some it)
  ∧ ((∀ x ∈ P, itemMatches s l x = false) →
        findItemBySourceName m s pn l = none)
  ∧ (∀ l1 l2 f n, P = l1 ++ (⟨s, f, n, "_"⟩ : AtlasItem) :: l2 →
        (∀ x ∈ l1, itemMatches s l x = false) →
        ∃ it, findItemBySourceName m s pn l = some it ∧ it.file = f) := by
  have hpkgP : getPackage m pn = P := by
    have hnd : m.status ≠ DISPOSED := by
      rw [hrun]; decide
    simp [getPackage, hnd, hpkg]
  have hfind : findItemBySourceName m s pn l = findInPkg P s l := by
    have hr : ¬ m.status ≠ RUNNING := by simp [hrun]
    simp [findItemBySourceName, hr, hpkgP]
  refine ⟨?_, ?_, ?_⟩
  · intro l1 it l2 hP hit h1
    rw [hfind, hP]
    exact find?_append_first _ l1 it l2 hit h1
  · intro hnone
    rw [hfind]
    exact find?_none_of_all_false _ P hnone
  · intro l1 l2 f n hP h1
    refine ⟨⟨s, f, n, "_"⟩, ?_, rfl⟩
    rw [hfind, hP]
    exact find?_append_first _ l1 _ l2 (by simp [itemMatches]) h1

/-- Spec scenario 2 variant for the C2 witness: an unlocalized item stored
before a localized variant of the same source name. -/
def mPrecedence : Manager :=
  newSoundManager
    [("p", [⟨"a", "F0", 1, "en"⟩, ⟨"s", "Fu", 2, "_"⟩, ⟨"s", "Fe", 3, "en"⟩])]
    "p" "en"

/-- Witness for C2: in `mPrecedence`, requesting `"s"` in language `"en"`
returns the unlocalized item `("s", "Fu", 2, "_")` stored first. -/
theorem findItemBySourceName_first_match_witness :
    findItemBySourceName mPrecedence "s" "p" "en" =
      some ⟨"s", "Fu", 2, "_"⟩ := by
  obtain ⟨h1, -, -⟩ := findItemBySourceName_first_match mPrecedence
    [⟨"a", "F0", 1, "en"⟩, ⟨"s", "Fu", 2, "_"⟩, ⟨"s", "Fe", 3, "en"⟩]
    "p" "s" "en" rfl (by decide)
  exact h1 [⟨"a", "F0", 1, "en"⟩] ⟨"s", "Fu", 2, "_"⟩ [⟨"s", "Fe", 3, "en"⟩]
    rfl (by decide) (by decide)

/-- An atlas item with a small sample count, used by the concrete
load scenarios. -/
def hiItem : AtlasItem := ⟨"hi", "24k.1ch.7", 8, "_"⟩

/-- A freshly constructed manager holding only `hiItem`. -/
def mSingle : Manager := newSoundManager [("a", [hiItem])] "a"

/-- State of `mSingle` after the first `requestBufferAsync("hi")`: ticket `0` is
installed for `hiItem`'s file. -/
def mSingleTicketed : Manager :=
  { mSingle with promises := [("24k.1ch.7", 0)], nextTicket := 1 }

/-- A decoded buffer for `hiItem`: one channel, five frames (shorter than
the atlas sample count, as browser decoders may report). -/
def decodedHi : Buf := ⟨1, 5, 48000, [[1, 2, 3, 4, 5]]⟩

/-- C3.  Single-flight holds: the second `requestBufferAsync("hi")`
issued before the decode completes returns the very same ticket `0` and
issues no second fetch.  But when the decode completes, the promise chain
settles with `undefined` (`TicketValue.undef`), not with the decoded
buffer: the final `.then(_ => this.dispatchEvent(...))` handler at
lines 527-529 discards the `target` returned by the preceding handler, so
both callers resolve with `undefined` — contradicting the documented
`Promise<AudioBuffer | null>` return (the buffer itself is correctly
cached and filled, as the last two conjuncts show). -/
theorem requestBufferAsync_resolves_undefined :
    requestBufferAsyncStart mSingle "hi" = .ok (mSingleTicketed, some 0, true)
  ∧ requestBufferAsyncStart mSingleTicketed "hi" =
      .ok (mSingleTicketed, some 0, false)
  ∧ (loadItemComplete mSingleTicketed hiItem (.success decodedHi)).2 =
      .undef
  ∧ (loadItemComplete mSingleTicketed hiItem (.success decodedHi)).1.buffers =
      [("24k.1ch.7", 0)]
  ∧ (loadItemComplete mSingleTicketed hiItem (.success decodedHi)).1.heap =
      [⟨1, 8, 48000, [[1, 2, 3, 4, 5, 0, 0, 0]]⟩] := by
  decide

/-- State of `mSingle` after `requestBufferSync("hi")`: the silent placeholder is
cached under the file name at heap index `0` and ticket `0` is in
flight. -/
def mPlaceholder : Manager :=
  { mSingle with
      buffers := [("24k.1ch.7", 0)],
      heap := [createBuffer 1 8 48000],
      promises := [("24k.1ch.7", 0)],
      nextTicket := 1 }

/-- Counterexample to C4.  With the placeholder cached, a fetch/decode
failure makes the `.catch` handler (lines 530-533) resolve the request
promise with the cached placeholder buffer — not `null` — and no
`soundloaderror` event is dispatched. -/
theorem loadItem_failure_counterexample :
    (loadItemComplete mPlaceholder hiItem .failure).2 = .buf 0
  ∧ (loadItemComplete mPlaceholder hiItem .failure).2 ≠ .nullv
  ∧ (loadItemComplete mPlaceholder hiItem .failure).1.events = [] := by
  decide

/-- C4 as amended.  On fetch or decode failure the request promise
resolves with `this.buffers.get(file) ?? null` — the cached (placeholder)
buffer when one exists, `null` otherwise — the manager state (including
the event log) is untouched, and no `sound-load-error` event is emitted;
`soundloaderror` is dispatched only by `loadFile` when no atlas item
matches the requested file name, as the last conjunct shows. -/
theorem loadItem_failure_amended (m : Manager) (item : AtlasItem)
    (f : String) :
    (loadItemComplete m item .failure).1 = m
  ∧ (lookupKV m.buffers item.file = none →
        (loadItemComplete m item .failure).2 = .nullv)
  ∧ (∀ bid, lookupKV m.buffers item.file = some bid →
        (loadItemComplete m item .failure).2 = .buf bid)
  ∧ (m.status = RUNNING → lookupKV m.promises f = none →
        findItemByFileName m f = none →
        loadFileStart m f =
          ({ m with events := m.events ++ [.soundloaderror f] },
            none, false)) := by
  refine ⟨rfl, ?_, ?_, ?_⟩
  · intro hb
    simp [loadItemComplete, hb]
  · intro bid hb
    simp [loadItemComplete, hb]
  · intro hs hp hi
    have hr : ¬ m.status ≠ RUNNING := by simp [hs]
    simp [loadFileStart, hr, hp, hi]

/-- Witness for C4 (amended): at the concrete placeholder state the
failure path resolves with the placeholder buffer at heap index `0`. -/
theorem loadItem_failure_amended_witness :
    lookupKV mPlaceholder.buffers hiItem.file = some 0
  ∧ (loadItemComplete mPlaceholder hiItem .failure).2 = .buf 0 :=
  ⟨by decide,
    (loadItem_failure_amended mPlaceholder hiItem "x").2.2.1 0 (by decide)⟩

/-- Helper: the start phase of `loadItem` only touches `promises` and
`nextTicket`. -/
theorem loadItemStart_frame (m : Manager) (item : AtlasItem) :
    (loadItemStart m item).1.buffers = m.buffers
  ∧ (loadItemStart m item).1.heap = m.heap
  ∧ (loadItemStart m item).1.status = m.status
  ∧ (loadItemStart m item).1.events = m.events := by
  unfold loadItemStart
  split
  · exact ⟨rfl, rfl, rfl, rfl⟩
  · split <;> exact ⟨rfl, rfl, rfl, rfl⟩

/-- C5.  Whatever buffer `requestBufferSync` returned for a name — in
particular a freshly installed silent placeholder — a subsequent fetch or
decode failure leaves the cache entry exactly as it was: the `.catch`
handler resolves with that very buffer and never replaces the entry with
`null` (it performs no cache write at all). -/
theorem placeholder_survives_decode_failure (m m1 : Manager) (name : String)
    (item : AtlasItem) (bid : Nat)
    (hfind : findItemBySourceName m name = some item)
    (hreq : requestBufferSync m name = (m1, some bid)) :
    lookupKV m1.buffers item.file = some bid
  ∧ loadItemComplete m1 item .failure = (m1, .buf bid) := by
  have hb : lookupKV m1.buffers item.file = some bid := by
    unfold requestBufferSync at hreq
    by_cases hs : m.status ≠ RUNNING
    · rw [if_pos hs] at hreq
      simp at hreq
    · rw [if_neg hs, hfind] at hreq
      dsimp only at hreq
      cases hbuf : lookupKV m.buffers item.file with
      | some b =>
          rw [hbuf] at hreq
          obtain ⟨hm1, hbid⟩ := Prod.mk.injEq .. ▸ hreq
          cases hm1
          cases Option.some.injEq .. ▸ hbid
          exact hbuf
      | none =>
          rw [hbuf] at hreq
          cases hnc : numChannels item.file with
          | none =>
              rw [hnc] at hreq
              simp at hreq
          | some nc =>
              rw [hnc] at hreq
              simp only [Prod.mk.injEq] at hreq
              obtain ⟨hm1, hbid⟩ := hreq
              cases Option.some.injEq .. ▸ hbid
              rw [← hm1]
              rw [(loadItemStart_frame _ item).1]
              exact lookupKV_setKV_eq m.buffers item.file m.heap.length
  refine ⟨hb, ?_⟩
  simp [loadItemComplete, hb]

/-- Witness for C5: from the fresh single-item manager,
`requestBufferSync("hi")` installs the placeholder at heap index `0` and
a decode failure leaves that entry untouched. -/
theorem placeholder_survives_decode_failure_witness :
    lookupKV mPlaceholder.buffers hiItem.file = some 0
  ∧ loadItemComplete mPlaceholder hiItem .failure = (mPlaceholder, .buf 0) :=
  placeholder_survives_decode_failure mSingle mPlaceholder "hi" hiItem 0
    (by decide) (by decide)

/-- The sample stored at channel `i`, frame `j` of a buffer (out-of-range
indices read as silence). -/
def dataAt (b : Buf) (i j : Nat) : Int :=
  ((b.data[i]?.getD [])[j]?).getD 0

/-- Well-formedness of a buffer object: the channel-data array has
`numberOfChannels` channels of `length` frames each (true of every
`AudioBuffer` the web audio API hands out). -/
def BufWF (b : Buf) : Prop :=
  b.data.length = b.numberOfChannels ∧ ∀ ch ∈ b.data, ch.length = b.length

instance (b : Buf) : Decidable (BufWF b) := by
  unfold BufWF
  infer_instance

/-- Helper: `fillData` on a channel index below the channel bound. -/
theorem fillData_get_lt (ns : Nat) :
    ∀ (td : List (List Int)) (nc : Nat) (sd : List (List Int)) (i : Nat),
      i < nc → i < td.length → i < sd.length →
      (fillData nc ns td sd)[i]? =
        some ((sd[i]?.getD []).take ns ++ (td[i]?.getD []).drop ns) := by
  intro td
  induction td with
  | nil =>
      intro nc sd i _ h2 _
      simp at h2
  | cons tch trest ih =>
      intro nc sd i h1 h2 h3
      match nc, sd, i with
      | 0, _, _ => exact absurd h1 (by omega)
      | nc + 1, [], i => simp at h3
      | nc + 1, sch :: srest, 0 => simp [fillData]
      | nc + 1, sch :: srest, i + 1 =>
          have h2r : i < trest.length := by simpa using h2
          have h3r : i < srest.length := by simpa using h3
          simpa [fillData] using ih nc srest i (by omega) h2r h3r

/-- Helper: `fillData` leaves channels at or beyond the bound unchanged. -/
theorem fillData_get_ge (ns : Nat) :
    ∀ (td : List (List Int)) (nc : Nat) (sd : List (List Int)) (i : Nat),
      nc ≤ i → (fillData nc ns td sd)[i]? = td[i]? := by
  intro td
  induction td with
  | nil =>
      intro nc sd i _
      cases nc <;> cases sd <;> simp [fillData]
  | cons tch trest ih =>
      intro nc sd i h1
      match nc, sd, i with
      | 0, sd, i => simp [fillData]
      | nc + 1, [], i => simp [fillData]
      | nc + 1, sch :: srest, 0 => exact absurd h1 (by omega)
      | nc + 1, sch :: srest, i + 1 =>
          simpa [fillData] using ih nc srest i (by omega)

/-- Helper: a well-formed buffer's channel list at a valid index has the
buffer's frame count. -/
theorem BufWF_channel_length (b : Buf) (hw : BufWF b) (i : Nat)
    (hi : i < b.data.length) : (b.data[i]?.getD []).length = b.length := by
  cases hch : b.data[i]? with
  | none =>
      rw [List.getElem?_eq_none_iff] at hch
      omega
  | some ch =>
      have : ch ∈ b.data := List.getElem?_mem hch
      simpa [hch] using hw.2 ch this

/-- The `fill` contract: channel `i`, frame `j` of the filled target holds
the decoded sample when `i` and `j` lie below the channel/frame minima of
the two buffers, and the original target sample otherwise; the buffer's
declared shape is untouched. -/
theorem fill_spec (t s : Buf) (hwt : BufWF t) (hws : BufWF s) :
    (fill t s).numberOfChannels = t.numberOfChannels
  ∧ (fill t s).length = t.length
  ∧ (fill t s).sampleRate = t.sampleRate
  ∧ (∀ i j, i < min t.numberOfChannels s.numberOfChannels →
        j < min t.length s.length → dataAt (fill t s) i j = dataAt s i j)
  ∧ (∀ i j, min t.numberOfChannels s.numberOfChannels ≤ i ∨
        min t.length s.length ≤ j →
        dataAt (fill t s) i j = dataAt t i j) := by
  refine ⟨rfl, rfl, rfl, ?_, ?_⟩
  · intro i j hi hj
    have hit : i < t.data.length := by rw [hwt.1]; omega
    have his : i < s.data.length := by rw [hws.1]; omega
    have h1 := fillData_get_lt (min t.length s.length) t.data
      (min t.numberOfChannels s.numberOfChannels) s.data i hi hit his
    have hsch : (s.data[i]?.getD []).length = s.length :=
      BufWF_channel_length s hws i his
    have hjlen : j <
        ((s.data[i]?.getD []).take (min t.length s.length)).length := by
      rw [List.length_take, hsch]; omega
    simp only [dataAt, fill]
    rw [h1]
    simp only [Option.getD_some]
    rw [List.getElem?_append_left hjlen]
    simp [List.getElem?_take, hj]
  · intro i j hij
    by_cases hc : min t.numberOfChannels s.numberOfChannels ≤ i
    · have h1 := fillData_get_ge (min t.length s.length) t.data
        (min t.numberOfChannels s.numberOfChannels) s.data i hc
      simp only [dataAt, fill]
      rw [h1]
    · have hi : i < min t.numberOfChannels s.numberOfChannels := by omega
      have hj : min t.length s.length ≤ j := by
        rcases hij with h | h
        · exact absurd h hc
        · exact h
      have hit : i < t.data.length := by rw [hwt.1]; omega
      have his : i < s.data.length := by rw [hws.1]; omega
      have h1 := fillData_get_lt (min t.length s.length) t.data
        (min t.numberOfChannels s.numberOfChannels) s.data i hi hit his
      have hsch : (s.data[i]?.getD []).length = s.length :=
        BufWF_channel_length s hws i his
      have htlen : ((s.data[i]?.getD []).take (min t.length s.length)).length
          = min t.length s.length := by
        rw [List.length_take]; omega
      simp only [dataAt, fill]
      rw [h1]
      simp only [Option.getD_some]
      rw [List.getElem?_append_right (by rw [htlen]; exact hj), htlen]
      rw [List.getElem?_drop]
      have harith : min t.length s.length + (j - min t.length s.length) = j :=
        by omega
      rw [harith]

/-- C6.  If the cache maps the item's file to heap index `bid` (holding
the buffer object `target`) when the decode completes, then afterwards the
cache still maps the file to the very same index, whose contents are now
`fill target decoded` — i.e. the object was overwritten in place, frame
`(i, j)` carrying the decoded sample exactly when `i` and `j` lie below
`min(target.channels, decoded.channels)` and
`min(target.length, decoded.length)` — and any later `requestBufferSync`
that resolves to this file returns the identical heap index. -/
theorem decode_completion_preserves_buffer_identity (m : Manager)
    (item : AtlasItem) (decoded target : Buf) (bid : Nat)
    (hb : lookupKV m.buffers item.file = some bid)
    (ht : m.heap[bid]? = some target)
    (hwt : BufWF target) (hws : BufWF decoded) :
    lookupKV (loadItemComplete m item (.success decoded)).1.buffers
      item.file = some bid
  ∧ (loadItemComplete m item (.success decoded)).1.heap[bid]? =
      some (fill target decoded)
  ∧ (∀ i j, i < min target.numberOfChannels decoded.numberOfChannels →
        j < min target.length decoded.length →
        dataAt (fill target decoded) i j = dataAt decoded i j)
  ∧ (∀ i j, min target.numberOfChannels decoded.numberOfChannels ≤ i ∨
        min target.length decoded.length ≤ j →
        dataAt (fill target decoded) i j = dataAt target i j)
  ∧ (∀ nm it2,
        findItemBySourceName (loadItemComplete m item (.success decoded)).1
          nm = some it2 →
        it2.file = item.file →
        requestBufferSync (loadItemComplete m item (.success decoded)).1 nm =
          ((loadItemComplete m item (.success decoded)).1, some bid)) := by
  have hlt : bid < m.heap.length := by
    by_cases h : bid < m.heap.length
    · exact h
    · rw [List.getElem?_eq_none_iff.mpr (by omega)] at ht
      cases ht
  have hred : (loadItemComplete m item (.success decoded)).1 =
      { m with buffers := setKV m.buffers item.file bid,
               heap := m.heap.set bid (fill target decoded),
               events := m.events ++ [.soundloaded item.file] } := by
    simp [loadItemComplete, hb, List.getD_eq_getElem?_getD, ht]
  have hlook : lookupKV
      (loadItemComplete m item (.success decoded)).1.buffers item.file =
      some bid := by
    rw [hred]
    exact lookupKV_setKV_eq m.buffers item.file bid
  refine ⟨hlook, ?_, (fill_spec target decoded hwt hws).2.2.2.1,
    (fill_spec target decoded hwt hws).2.2.2.2, ?_⟩
  · rw [hred]
    exact List.getElem?_set_eq_of_lt (fill target decoded) hlt
  · intro nm it2 hfind2 hfile
    have hrun : ¬ (loadItemComplete m item (.success decoded)).1.status ≠
        RUNNING := by
      intro hcon
      rw [findItemBySourceName, if_pos hcon] at hfind2
      cases hfind2
    unfold requestBufferSync
    rw [if_neg hrun, hfind2]
    dsimp only
    rw [hfile, hlook]

/-- Witness for C6: completing the decode of `decodedHi` over the cached
placeholder of `mPlaceholder` keeps the cache entry at heap index `0` and
stores the filled buffer there. -/
theorem decode_completion_preserves_buffer_identity_witness :
    lookupKV (loadItemComplete mPlaceholder hiItem
      (.success decodedHi)).1.buffers "24k.1ch.7" = some 0
  ∧ (loadItemComplete mPlaceholder hiItem (.success decodedHi)).1.heap[0]? =
      some (fill (createBuffer 1 8 48000) decodedHi) :=
  ⟨(decode_completion_preserves_buffer_identity mPlaceholder hiItem decodedHi
      (createBuffer 1 8 48000) 0 (by decide) (by decide) (by decide)
      (by decide)).1,
   (decode_completion_preserves_buffer_identity mPlaceholder hiItem decodedHi
      (createBuffer 1 8 48000) 0 (by decide) (by decide) (by decide)
      (by decide)).2.1⟩

/-- Helper: inserting preserves the multiset of elements. -/
theorem perm_orderedInsertB {α : Type} (le : α → α → Bool) (a : α) :
    ∀ l : List α, (orderedInsertB le a l).Perm (a :: l) := by
  intro l
  induction l with
  | nil => simp [orderedInsertB]
  | cons b l ih =>
      by_cases h : le a b = true
      · simp [orderedInsertB, h]
      · rw [orderedInsertB, if_neg h]
        exact ((ih.cons b).trans (List.Perm.swap a b l))

/-- Helper: the stable sort permutes its input. -/
theorem perm_insertionSortB {α : Type} (le : α → α → Bool) :
    ∀ l : List α, (insertionSortB le l).Perm l := by
  intro l
  induction l with
  | nil => simp [insertionSortB]
  | cons a l ih =>
      exact (perm_orderedInsertB le a (insertionSortB le l)).trans (ih.cons a)

/-- Helper: inserting into a sorted list keeps it sorted, provided the
comparator is total and transitive. -/
theorem pairwise_orderedInsertB {α : Type} (le : α → α → Bool)
    (htot : ∀ a b, le a b = false → le b a = true)
    (htrans : ∀ a b c, le a b = true → le b c = true → le a c = true)
    (a : α) :
    ∀ l : List α, List.Pairwise (fun x y => le x y = true) l →
      List.Pairwise (fun x y => le x y = true) (orderedInsertB le a l) := by
  intro l
  induction l with
  | nil =>
      intro _
      simp [orderedInsertB]
  | cons b l ih =>
      intro hp
      obtain ⟨hb, hl⟩ := List.pairwise_cons.mp hp
      by_cases h : le a b = true
      · rw [orderedInsertB, if_pos h]
        refine List.pairwise_cons.mpr ⟨?_, hp⟩
        intro y hy
        rcases List.mem_cons.mp hy with rfl | hy2
        · exact h
        · exact htrans a b y h (hb y hy2)
      · rw [orderedInsertB, if_neg h]
        refine List.pairwise_cons.mpr ⟨?_, ih hl⟩
        intro y hy
        have hy3 := (perm_orderedInsertB le a l).mem_iff.mp hy
        rcases List.mem_cons.mp hy3 with h5 | hy4
        · rw [h5]
          exact htot a b (by simpa using h)
        · exact hb y hy4

/-- Helper: the stable sort sorts, provided the comparator is total and
transitive. -/
theorem pairwise_insertionSortB {α : Type} (le : α → α → Bool)
    (htot : ∀ a b, le a b = false → le b a = true)
    (htrans : ∀ a b c, le a b = true → le b c = true → le a c = true) :
    ∀ l : List α,
      List.Pairwise (fun x y => le x y = true) (insertionSortB le l) := by
  intro l
  induction l with
  | nil => simp [insertionSortB]
  | cons a l ih =>
      exact pairwise_orderedInsertB le htot htrans a (insertionSortB le l) ih

/-- Helper: inserting an element the filter drops leaves the filter
untouched. -/
theorem filter_orderedInsertB_neg {α : Type} (le : α → α → Bool)
    (p : α → Bool) (a : α) (hp : p a = false) :
    ∀ l : List α, (orderedInsertB le a l).filter p = l.filter p := by
  intro l
  induction l with
  | nil => simp [orderedInsertB, hp]
  | cons b l ih =>
      by_cases h : le a b = true
      · simp [orderedInsertB, h, hp]
      · rw [orderedInsertB, if_neg h]
        by_cases hb : p b = true
        · simp [List.filter, hb, ih]
        · simp only [Bool.not_eq_true] at hb
          simp [List.filter, hb, ih]

/-- Helper: inserting an element the filter keeps — one that the
comparator sends past exactly the dropped elements — prepends it to the
filter (this is the stability argument for the maximal key). -/
theorem filter_orderedInsertB_pos {α : Type} (le : α → α → Bool)
    (p : α → Bool) (a : α) (hp : p a = true)
    (hle : ∀ b, le a b = p b) :
    ∀ l : List α, (orderedInsertB le a l).filter p = a :: l.filter p := by
  intro l
  induction l with
  | nil => simp [orderedInsertB, hp]
  | cons b l ih =>
      by_cases h : le a b = true
      · have hb : p b = true := by rw [← hle b]; exact h
        simp [orderedInsertB, h, hp, hb]
      · have hb : p b = false := by
          rw [← hle b]
          simpa using h
        rw [orderedInsertB, if_neg h]
        simp [List.filter, hb, ih]

/-- Helper: the stable sort preserves the relative order of the elements
with the maximal key (those the filter keeps). -/
theorem filter_insertionSortB {α : Type} (le : α → α → Bool) (p : α → Bool)
    (hp : ∀ a, p a = true → ∀ b, le a b = p b) :
    ∀ l : List α, (insertionSortB le l).filter p = l.filter p := by
  intro l
  induction l with
  | nil => simp [insertionSortB]
  | cons a l ih =>
      by_cases ha : p a = true
      · rw [insertionSortB, filter_orderedInsertB_pos le p a ha (hp a ha), ih]
        simp [List.filter, ha]
      · have ha2 : p a = false := by simpa using ha
        rw [insertionSortB, filter_orderedInsertB_neg le p a ha2, ih]
        simp [List.filter, ha2]

/-- Helper: the source names carried by `withIdx`. -/
theorem withIdx_map_snd (ps : List String) :
    ∀ n, (withIdx n ps).map Prod.snd = ps := by
  induction ps with
  | nil => intro n; rfl
  | cons s rest ih =>
      intro n
      simp [withIdx, ih]

/-- Helper: the indices produced by `withIdx` are bounded. -/
theorem withIdx_fst_lt (ps : List String) :
    ∀ n x, x ∈ withIdx n ps → x.1 < n + ps.length := by
  induction ps with
  | nil =>
      intro n x hx
      simp [withIdx] at hx
  | cons s rest ih =>
      intro n x hx
      rw [withIdx] at hx
      rcases List.mem_cons.mp hx with rfl | hx2
      · simp
      · have := ih (n + 1) x hx2
        simp only [List.length_cons]
        omega

/-- Helper: a key is present in the `Map`-style fold exactly when it
occurs among the pairs or was present beforehand. -/
theorem foldl_setKV_isSome (l : List (Nat × String))
    (acc : List (String × Nat)) (s : String) :
    (lookupKV (l.foldl (fun m p => setKV m p.2 p.1) acc) s).isSome ↔
      s ∈ l.map Prod.snd ∨ (lookupKV acc s).isSome := by
  induction l generalizing acc with
  | nil => simp
  | cons p rest ih =>
      obtain ⟨i, t⟩ := p
      rw [List.foldl_cons]
      rw [ih (setKV acc t i)]
      by_cases h : s = t
      · subst h
        simp [lookupKV_setKV_eq]
      · rw [lookupKV_setKV_ne acc t s i h]
        simp [h]

/-- Helper: every value stored by the `Map`-style fold is bounded when
the folded indices and the initial values are. -/
theorem foldl_setKV_lt (N : Nat) :
    ∀ (l : List (Nat × String)) (acc : List (String × Nat)),
      (∀ x ∈ l, x.1 < N) →
      (∀ k v, lookupKV acc k = some v → v < N) →
      ∀ s v, lookupKV (l.foldl (fun m p => setKV m p.2 p.1) acc) s = some v →
        v < N := by
  intro l
  induction l with
  | nil =>
      intro acc _ hacc s v hv
      exact hacc s v hv
  | cons p rest ih =>
      obtain ⟨i, t⟩ := p
      intro acc hl hacc s v hv
      rw [List.foldl_cons] at hv
      refine ih (setKV acc t i) (fun x hx => hl x (by simp [hx])) ?_ s v hv
      intro k w hw
      by_cases h : k = t
      · subst h
        rw [lookupKV_setKV_eq] at hw
        cases hw
        exact hl (i, k) (by simp)
      · rw [lookupKV_setKV_ne acc t k i h] at hw
        exact hacc k w hw

/-- Helper: the priority map knows a source name exactly when it occurs in
the priority list. -/
theorem priorityIndex_isSome (ps : List String) (s : String) :
    (lookupKV (priorityIndex ps) s).isSome ↔ s ∈ ps := by
  rw [priorityIndex, foldl_setKV_isSome, withIdx_map_snd]
  simp [lookupKV]

/-- Helper: every rank stored in the priority map is a real index. -/
theorem priorityIndex_lt (ps : List String) (s : String) (v : Nat)
    (hv : lookupKV (priorityIndex ps) s = some v) : v < ps.length := by
  refine foldl_setKV_lt ps.length (withIdx 0 ps) [] ?_ ?_ s v hv
  · intro x hx
    simpa using withIdx_fst_lt ps 0 x hx
  · intro k w hw
    simp [lookupKV] at hw

/-- Helper: ranks never exceed the `Infinity` stand-in. -/
theorem itemRank_le (ps : List String) (it : AtlasItem) :
    itemRank ps it ≤ ps.length := by
  rw [itemRank]
  cases hv : lookupKV (priorityIndex ps) it.source with
  | none => simp
  | some v =>
      have := priorityIndex_lt ps it.source v hv
      simp
      omega

/-- Helper: `sortItems` permutes its input. -/
theorem sortItems_perm (items : List AtlasItem) (ps : List String) :
    (sortItems items ps).Perm items :=
  perm_insertionSortB _ items

/-- Helper: `sortItems` sorts by priority rank. -/
theorem sortItems_pairwise (items : List AtlasItem) (ps : List String) :
    List.Pairwise (fun a b => itemRank ps a ≤ itemRank ps b)
      (sortItems items ps) := by
  have h := pairwise_insertionSortB
    (fun a b : AtlasItem => decide (itemRank ps a ≤ itemRank ps b))
    (fun a b hab => by
      simp only [decide_eq_false_iff_not, decide_eq_true_eq] at *
      omega)
    (fun a b c h1 h2 => by
      simp only [decide_eq_true_eq] at *
      omega)
    items
  have hrfl : sortItems items ps =
      insertionSortB
        (fun a b : AtlasItem => decide (itemRank ps a ≤ itemRank ps b))
        items := rfl
  rw [hrfl]
  exact h.imp (fun hx => of_decide_eq_true hx)

/-- Helper: `sortItems` keeps the non-priority items (the maximal-rank
class) in their original relative order. -/
theorem sortItems_filter_nonpriority (items : List AtlasItem)
    (ps : List String) :
    (sortItems items ps).filter
        (fun it => (lookupKV (priorityIndex ps) it.source).isNone)
      = items.filter
        (fun it => (lookupKV (priorityIndex ps) it.source).isNone) := by
  have hrfl : sortItems items ps =
      insertionSortB
        (fun a b : AtlasItem => decide (itemRank ps a ≤ itemRank ps b))
        items := rfl
  rw [hrfl]
  apply filter_insertionSortB
  intro a ha b
  have hna : lookupKV (priorityIndex ps) a.source = none := by
    simpa [Option.isNone_iff_eq_none] using ha
  have hra : itemRank ps a = ps.length := by simp [itemRank, hna]
  cases hnb : lookupKV (priorityIndex ps) b.source with
  | none =>
      have hrb : itemRank ps b = ps.length := by simp [itemRank, hnb]
      simp [hra, hrb]
  | some v =>
      have hv := priorityIndex_lt ps b.source v hnb
      have hrb : itemRank ps b = v := by simp [itemRank, hnb]
      simp only [hra, hrb, hnb, Option.isNone_some, decide_eq_false_iff_not]
      omega

/-- Helper: an item of maximal rank is a non-priority item. -/
theorem rank_max_lookup_none (ps : List String) (it : AtlasItem)
    (h : ps.length ≤ itemRank ps it) :
    lookupKV (priorityIndex ps) it.source = none := by
  cases hv : lookupKV (priorityIndex ps) it.source with
  | none => rfl
  | some v =>
      have h1 := priorityIndex_lt ps it.source v hv
      have h2 : itemRank ps it = v := by simp [itemRank, hv]
      omega

/-- Helper: a list sorted by priority rank splits as its priority items
followed by its non-priority items. -/
theorem sorted_split_nonpriority (ps : List String) :
    ∀ l : List AtlasItem,
      List.Pairwise (fun a b => itemRank ps a ≤ itemRank ps b) l →
      l = l.filter
            (fun it => (lookupKV (priorityIndex ps) it.source).isSome)
          ++ l.filter
            (fun it => (lookupKV (priorityIndex ps) it.source).isNone) := by
  intro l
  induction l with
  | nil => intro _; rfl
  | cons a l ih =>
      intro hp
      obtain ⟨ha, hl⟩ := List.pairwise_cons.mp hp
      by_cases hs : (lookupKV (priorityIndex ps) a.source).isSome = true
  -- priority head: it stays in front of the split of the tail
      · have hn : (lookupKV (priorityIndex ps) a.source).isNone = false := by
          cases hv : lookupKV (priorityIndex ps) a.source with
          | none => rw [hv] at hs; simp at hs
          | some v => simp
        rw [List.filter_cons, List.filter_cons]
        rw [if_pos hs, if_neg (by simp [hn])]
        simpa using ih hl
  -- non-priority head: every element has maximal rank, nothing precedes it
      · have hna : lookupKV (priorityIndex ps) a.source = none := by
          cases hv : lookupKV (priorityIndex ps) a.source with
          | none => rfl
          | some v => rw [hv] at hs; simp at hs
        have hra : itemRank ps a = ps.length := by simp [itemRank, hna]
        have hall : ∀ y ∈ a :: l,
            lookupKV (priorityIndex ps) y.source = none := by
          intro y hy
          rcases List.mem_cons.mp hy with h5 | hy2
          · rw [h5]; exact hna
          · refine rank_max_lookup_none ps y ?_
            have := ha y hy2
            omega
        have h1 : (a :: l).filter
            (fun it => (lookupKV (priorityIndex ps) it.source).isSome)
            = [] := by
          rw [List.filter_eq_nil_iff]
          intro y hy
          simp [hall y hy]
        have h2 : (a :: l).filter
            (fun it => (lookupKV (priorityIndex ps) it.source).isNone)
            = a :: l := by
          rw [List.filter_eq_self]
          intro y hy
          simp [hall y hy]
        rw [h1, h2]
        rfl

/-- Helper: with no priorities configured every rank is zero. -/
theorem pairwise_rank_nil (l : List AtlasItem) :
    List.Pairwise (fun a b => itemRank [] a ≤ itemRank [] b) l := by
  induction l with
  | nil => exact List.Pairwise.nil
  | cons a l ih =>
      refine List.pairwise_cons.mpr ⟨?_, ih⟩
      intro y _
      simp [itemRank, priorityIndex, withIdx, lookupKV]

/-- C7.  The order in which `loadItems` issues its loads is a permutation
of the item list that (a) splits as the priority items followed by the
non-priority items, (b) is sorted by priority rank — non-priority items
rank as `Infinity`, here `ps.length` — so priority items appear ordered
by their rank, and (c) keeps the non-priority items in their original
relative order; a source name counts as priority exactly when it occurs
in the configured priority list. -/
theorem loadItems_priority_order (m : Manager) (items : List AtlasItem) :
    (loadItemsOrder m items).Perm items
  ∧ loadItemsOrder m items =
      (loadItemsOrder m items).filter
        (fun it => (lookupKV (priorityIndex m.priorities) it.source).isSome)
      ++ (loadItemsOrder m items).filter
        (fun it => (lookupKV (priorityIndex m.priorities) it.source).isNone)
  ∧ List.Pairwise
      (fun a b => itemRank m.priorities a ≤ itemRank m.priorities b)
      (loadItemsOrder m items)
  ∧ (loadItemsOrder m items).filter
        (fun it => (lookupKV (priorityIndex m.priorities) it.source).isNone)
      = items.filter
        (fun it => (lookupKV (priorityIndex m.priorities) it.source).isNone)
  ∧ (∀ s, (lookupKV (priorityIndex m.priorities) s).isSome = true ↔
        s ∈ m.priorities) := by
  by_cases hp : 0 < m.priorities.length
  · unfold loadItemsOrder
    rw [if_pos hp]
    refine ⟨sortItems_perm items m.priorities, ?_,
      sortItems_pairwise items m.priorities,
      sortItems_filter_nonpriority items m.priorities,
      fun s => priorityIndex_isSome m.priorities s⟩
    exact sorted_split_nonpriority m.priorities _
      (sortItems_pairwise items m.priorities)
  · unfold loadItemsOrder
    rw [if_neg hp]
    have hnil : m.priorities = [] := by
      cases hq : m.priorities with
      | nil => rfl
      | cons x xs => rw [hq] at hp; simp at hp
    rw [hnil]
    refine ⟨List.Perm.refl items, ?_, pairwise_rank_nil items, rfl,
      fun s => priorityIndex_isSome [] s⟩
    exact sorted_split_nonpriority [] items (pairwise_rank_nil items)

/-- Helper: key membership after `Map.set`. -/
theorem mem_jsKeyInsert (l : List String) (f b : String) :
    b ∈ jsKeyInsert l f ↔ b ∈ l ∨ b = f := by
  unfold jsKeyInsert
  split
  · constructor
    · intro h; exact Or.inl h
    · intro h
      rcases h with h | h
      · exact h
      · rw [h]; assumption
  · simp

/-- Helper: the per-item effect of `rtDisposeItem` on the runtime maps. -/
theorem rtDisposeItem_effect (s : RtState) (f : String) :
    (∀ b, b ∈ (rtDisposeItem s f).buffers ↔ b ∈ s.buffers ∧ b ≠ f)
  ∧ (∀ p, p ∈ (rtDisposeItem s f).promises ↔ p ∈ s.promises ∧ p ≠ f)
  ∧ (rtDisposeItem s f).inflight = s.inflight
  ∧ (rtDisposeItem s f).listeners = s.listeners
  ∧ (rtDisposeItem s f).observed = s.observed
  ∧ (∀ c ∈ s.cleanup, c ∈ (rtDisposeItem s f).cleanup)
  ∧ (f ∈ s.promises → f ∈ (rtDisposeItem s f).cleanup) := by
  unfold rtDisposeItem
  by_cases h : f ∈ s.promises
  · rw [if_pos (by simpa using h)]
    refine ⟨?_, ?_, rfl, rfl, rfl, ?_, ?_⟩
    · intro b; simp [List.mem_filter]
    · intro p; simp [List.mem_filter]
    · intro c hc; simp [hc]
    · intro _; simp
  · rw [if_neg (by simpa using h)]
    refine ⟨?_, ?_, rfl, rfl, rfl, ?_, ?_⟩
    · intro b; simp [List.mem_filter]
    · intro p
      simp only [List.mem_filter, decide_eq_true_eq]
      constructor
      · intro hp
        refine ⟨hp, ?_⟩
        intro hpf
        rw [hpf] at hp
        exact h hp
      · intro hp; exact hp.1
    · intro c hc; exact hc
    · intro hf; exact absurd hf h

/-- Helper: the effect of the full synchronous disposal pass. -/
theorem rtDispose_fold_effect :
    ∀ (l : List String) (s : RtState),
      (∀ b, b ∈ (l.foldl rtDisposeItem s).buffers ↔ b ∈ s.buffers ∧ b ∉ l)
    ∧ (∀ p, p ∈ (l.foldl rtDisposeItem s).promises ↔ p ∈ s.promises ∧ p ∉ l)
    ∧ (l.foldl rtDisposeItem s).inflight = s.inflight
    ∧ (l.foldl rtDisposeItem s).listeners = s.listeners
    ∧ (l.foldl rtDisposeItem s).observed = s.observed
    ∧ (∀ c ∈ s.cleanup, c ∈ (l.foldl rtDisposeItem s).cleanup)
    ∧ (∀ f, f ∈ s.promises → f ∈ l → f ∈ (l.foldl rtDisposeItem s).cleanup) := by
  intro l
  induction l with
  | nil =>
      intro s
      refine ⟨?_, ?_, rfl, rfl, rfl, fun c hc => hc, ?_⟩
      · intro b; simp
      · intro p; simp
      · intro f _ hf; simp at hf
  | cons g rest ih =>
      intro s
      obtain ⟨db, dp, di, dl, do2, dc, dfp⟩ := rtDisposeItem_effect s g
      obtain ⟨rb, rp, ri, rl, ro, rc, rfp⟩ := ih (rtDisposeItem s g)
      rw [List.foldl_cons]
      refine ⟨?_, ?_, by rw [ri, di], by rw [rl, dl], by rw [ro, do2], ?_, ?_⟩
      · intro b
        rw [rb b, db b]
        simp only [List.mem_cons]
        constructor
        · intro hx
          exact ⟨hx.1.1, fun hc => by
            rcases hc with hc | hc
            · exact hx.1.2 hc
            · exact hx.2 hc⟩
        · intro hx
          exact ⟨⟨hx.1, fun hc => hx.2 (Or.inl hc)⟩, fun hc => hx.2 (Or.inr hc)⟩
      · intro p
        rw [rp p, dp p]
        simp only [List.mem_cons]
        constructor
        · intro hx
          exact ⟨hx.1.1, fun hc => by
            rcases hc with hc | hc
            · exact hx.1.2 hc
            · exact hx.2 hc⟩
        · intro hx
          exact ⟨⟨hx.1, fun hc => hx.2 (Or.inl hc)⟩, fun hc => hx.2 (Or.inr hc)⟩
      · intro c hc
        exact rc c (dc c hc)
      · intro f hf hfl
        by_cases hfg : f = g
        · rw [hfg] at hf ⊢
          exact rc g (dfp hf)
        · rcases List.mem_cons.mp hfl with h5 | h5
          · exact absurd h5 hfg
          · exact rfp f ((dp f).mpr ⟨hf, hfg⟩) h5

/-- The invariant maintained while draining the pending continuations
after disposal: no tickets remain registered, the listeners stay removed
(so nothing new is observed), every cached buffer belongs to a file whose
chain is still in flight, and every in-flight file has its cleanup
attached. -/
def RtInv (obs : List String) (s : RtState) : Prop :=
  s.promises = []
  ∧ s.listeners = false
  ∧ s.observed = obs
  ∧ (∀ b ∈ s.buffers, ∃ c, (b, c) ∈ s.inflight)
  ∧ (∀ q ∈ s.inflight, q.1 ∈ s.cleanup)

/-- Helper: delivering any continuation preserves the drain invariant. -/
theorem rtApply_inv (obs : List String) (s : RtState) (st : RtStep)
    (h : RtInv obs s) : RtInv obs (rtApply s st) := by
  obtain ⟨h1, h2, h3, h4, h5⟩ := h
  cases st with
  | decodeDone f =>
      unfold rtApply
      dsimp only
      by_cases hin : (f, false) ∈ s.inflight
      · rw [if_pos hin]
        refine ⟨h1, h2, by simp [h2, h3], ?_, ?_⟩
        · intro b hb
          rcases (mem_jsKeyInsert s.buffers f b).mp hb with hb2 | hb2
          · obtain ⟨c, hc⟩ := h4 b hb2
            refine ⟨if b = f then true else c, ?_⟩
            have : (if (b, c).1 = f then (f, true) else (b, c)) ∈
                s.inflight.map
                  (fun p => if p.1 = f then (f, true) else p) :=
              List.mem_map_of_mem _ hc
            by_cases hbf : b = f
            · simpa [hbf] using this
            · simpa [hbf] using this
          · refine ⟨true, ?_⟩
            have : (if ((f : String), false).1 = f then (f, true)
                else ((f : String), false)) ∈
                s.inflight.map
                  (fun p => if p.1 = f then (f, true) else p) :=
              List.mem_map_of_mem _ hin
            rw [hb2]
            simpa using this
        · intro q hq
          obtain ⟨q0, hq0, hq1⟩ := List.mem_map.mp hq
          have hfst : q.1 = q0.1 := by
            by_cases hc : q0.1 = f
            · rw [← hq1]; simp [hc]
            · rw [← hq1]; simp [hc]
          rw [hfst]
          exact h5 q0 hq0
      · rw [if_neg hin]
        exact ⟨h1, h2, h3, h4, h5⟩
  | finallyRun f =>
      unfold rtApply
      dsimp only
      by_cases hin : (f, true) ∈ s.inflight ∧ f ∈ s.cleanup
      · rw [if_pos hin]
        refine ⟨by simp [h1], h2, h3, ?_, ?_⟩
        · intro b hb
          rw [List.mem_filter] at hb
          obtain ⟨hb1, hb2⟩ := hb
          obtain ⟨c, hc⟩ := h4 b hb1
          refine ⟨c, ?_⟩
          rw [List.mem_filter]
          exact ⟨hc, by simpa using hb2⟩
        · intro q hq
          rw [List.mem_filter] at hq
          obtain ⟨hq1, hq2⟩ := hq
          rw [List.mem_filter]
          exact ⟨h5 q hq1, hq2⟩
      · rw [if_neg hin]
        exact ⟨h1, h2, h3, h4, h5⟩

/-- Helper: the drain invariant survives any schedule. -/
theorem rtRun_inv (obs : List String) :
    ∀ (steps : List RtStep) (s : RtState),
      RtInv obs s → RtInv obs (rtRun s steps) := by
  intro steps
  induction steps with
  | nil => intro s h; exact h
  | cons st rest ih =>
      intro s h
      exact ih (rtApply s st) (rtApply_inv obs s st h)

/-- The concrete pre-disposal runtime state for the C8 counterexample:
one file `"F"` cached (placeholder) with its decode still in flight. -/
def rtS0 : RtState := ⟨["F"], ["F"], [("F", false)], [], true, [], []⟩

/-- Counterexample to C8.  After `dispose()` has run (and its promise —
which does not await the per-entry `finally` continuations — has
resolved), both maps are empty; but when the pending decode then
completes, its handler re-inserts the buffer entry and dispatches
`soundloaded`: the maps do not *stay* empty, and an event of a load
initiated pre-dispose still fires. -/
theorem dispose_transient_resurrection :
    (rtDispose ["F"] rtS0).buffers = []
  ∧ (rtDispose ["F"] rtS0).promises = []
  ∧ (rtApply (rtDispose ["F"] rtS0) (.decodeDone "F")).buffers ≠ []
  ∧ (rtApply (rtDispose ["F"] rtS0) (.decodeDone "F")).dispatched ≠ [] := by
  decide

/-- C8 as amended.  When `dispose()`'s synchronous disposal pass has run
over an atlas covering all cached and in-flight files, both maps are
empty; a later decode completion may transiently re-insert its buffer, but
under every delivery schedule no ticket ever re-registers, nothing is
observed by a listener (they were removed), and once every in-flight chain
has been fully drained (`inflight = []`, i.e. each entry's awaited
`finally` ran after its ticket settled) the buffer map is empty again —
the quiescent state has both maps empty, so no disposed file name stays
resurrected. -/
theorem dispose_quiescent_empty (s0 : RtState) (atlasFiles : List String)
    (hb : ∀ f ∈ s0.buffers, f ∈ atlasFiles)
    (hp : ∀ f ∈ s0.promises, f ∈ atlasFiles)
    (hi : ∀ q ∈ s0.inflight, q.1 ∈ s0.promises) :
    (rtDispose atlasFiles s0).buffers = []
  ∧ (rtDispose atlasFiles s0).promises = []
  ∧ ∀ steps : List RtStep,
      (rtRun (rtDispose atlasFiles s0) steps).promises = []
    ∧ (rtRun (rtDispose atlasFiles s0) steps).observed = s0.observed
    ∧ ((rtRun (rtDispose atlasFiles s0) steps).inflight = [] →
        (rtRun (rtDispose atlasFiles s0) steps).buffers = []) := by
  have heff := rtDispose_fold_effect atlasFiles
    { s0 with listeners := false }
  obtain ⟨eb, ep, ei, el, eo, ec, efp⟩ := heff
  have hbe : (rtDispose atlasFiles s0).buffers = [] := by
    rw [List.eq_nil_iff_forall_not_mem]
    intro b hbm
    have := (eb b).mp hbm
    exact this.2 (hb b this.1)
  have hpe : (rtDispose atlasFiles s0).promises = [] := by
    rw [List.eq_nil_iff_forall_not_mem]
    intro p hpm
    have := (ep p).mp hpm
    exact this.2 (hp p this.1)
  have hinv : RtInv s0.observed (rtDispose atlasFiles s0) := by
    refine ⟨hpe, ?_, ?_, ?_, ?_⟩
    · rw [rtDispose, el]
    · rw [rtDispose, eo]
    · intro b hbm
      rw [hbe] at hbm
      simp at hbm
    · intro q hq
      rw [rtDispose] at hq ⊢
      rw [ei] at hq
      exact efp q.1 (hi q hq) (hp q.1 (hi q hq))
  refine ⟨hbe, hpe, ?_⟩
  intro steps
  obtain ⟨i1, _, i3, i4, _⟩ :=
    rtRun_inv s0.observed steps (rtDispose atlasFiles s0) hinv
  refine ⟨i1, i3, ?_⟩
  intro hdone
  rw [List.eq_nil_iff_forall_not_mem]
  intro b hbm
  obtain ⟨c, hc⟩ := i4 b hbm
  rw [hdone] at hc
  simp at hc

/-- Witness for C8 (amended): the concrete scenario, drained with the
decode completion followed by the `finally` cleanup, ends with both maps
empty and nothing observed. -/
theorem dispose_quiescent_empty_witness :
    (rtRun (rtDispose ["F"] rtS0)
        [.decodeDone "F", .finallyRun "F"]).promises = []
  ∧ (rtRun (rtDispose ["F"] rtS0)
        [.decodeDone "F", .finallyRun "F"]).observed = rtS0.observed
  ∧ (rtRun (rtDispose ["F"] rtS0)
        [.decodeDone "F", .finallyRun "F"]).buffers = [] := by
  obtain ⟨-, -, h⟩ := dispose_quiescent_empty rtS0 ["F"]
    (by decide) (by decide) (by decide)
  obtain ⟨h1, h2, h3⟩ := h [.decodeDone "F", .finallyRun "F"]
  exact ⟨h1, h2, h3 (by decide)⟩

/-- A disposed manager over the single-item atlas. -/
def mDisposed : Manager :=
  { newSoundManager [("a", [hiItem])] "a" with status := DISPOSED }

/-- Counterexample to C9.  `setPriorityList` carries no lifecycle guard:
called on a Disposed manager it still replaces the priority list, so not
every listed mutating operation is a state-preserving no-op; and
`loadItems`, handed a non-empty item list directly, resolves to a list of
`null`s rather than an empty result. -/
theorem disposed_setPriorityList_mutates :
    mDisposed.status = DISPOSED
  ∧ (setPriorityList mDisposed ["hi"]).priorities ≠ mDisposed.priorities
  ∧ setPriorityList mDisposed ["hi"] ≠ mDisposed
  ∧ (loadItemsStartM mDisposed [hiItem]).2 = [none]
  ∧ (loadItemsStartM mDisposed [hiItem]).2 ≠ [] := by
  decide

/-- Helper: the `loadItems` fold is inert once `loadItem` is guarded. -/
theorem loadItemsStartM_disposed (m : Manager) (hm : m.status = DISPOSED) :
    ∀ (l : List AtlasItem) (vs : List (Option Nat)),
      l.foldl
        (fun acc it =>
          let r := loadItemStart acc.1 it
          (r.1, acc.2 ++ [r.2.1]))
        (m, vs) = (m, vs ++ l.map (fun _ => none)) := by
  have hr : m.status ≠ RUNNING := by rw [hm]; decide
  intro l
  induction l with
  | nil => intro vs; simp
  | cons it rest ih =>
      intro vs
      rw [List.foldl_cons]
      have hstep : loadItemStart m it = (m, none, false) := by
        rw [loadItemStart, if_pos hr]
      rw [List.map_cons]
      dsimp only
      rw [hstep]
      dsimp only
      rw [ih (vs ++ [none])]
      simp

/-- C9 as amended.  On a Disposed manager every listed mutating operation
except `setPriorityList` leaves the entire manager state unchanged (so
the state remains Disposed) and returns its `null`/`false`/empty value —
with the caveat that `loadItems`, called directly with items, resolves to
one `null` per item rather than an empty list while still leaving the
state untouched; `setPriorityList` alone is unguarded and replaces the
priority list (touching nothing else). -/
theorem disposed_ops_noop (m : Manager)
    (atlas2 : List (String × List AtlasItem)) (lang pkgname path2 : String)
    (sources : List String) (file : String) (item : AtlasItem)
    (items : List AtlasItem) (hm : m.status = DISPOSED) :
    setAtlas m atlas2 = m
  ∧ loadAtlasStart m = (m, false)
  ∧ setLanguage m lang = (m, false)
  ∧ setPackageByName m pkgname = (m, false)
  ∧ setLoadPath m path2 = m
  ∧ setPriorityList m sources = { m with priorities := sources }
  ∧ loadFileStart m file = (m, none, false)
  ∧ loadItemStart m item = (m, none, false)
  ∧ (loadItemsStartM m items).1 = m
  ∧ (∀ v ∈ (loadItemsStartM m items).2, v = none)
  ∧ loadSourcesStart m sources = (m, [])
  ∧ loadPackageNameStart m = (m, [])
  ∧ loadPackageNamesStart m = (m, [])
  ∧ loadEverythingStart m = (m, [])
  ∧ loadLanguageStart m = (m, [])
  ∧ loadLanguagesStart m = (m, [])
  ∧ loadPriorityListStart m = (m, [])
  ∧ disposeItem m item = m
  ∧ disposePackage m = m
  ∧ disposePackages m = m
  ∧ disposeLanguage m = m
  ∧ dispose m = m := by
  have hr : m.status ≠ RUNNING := by rw [hm]; decide
  have hfold := loadItemsStartM_disposed m hm
  have hitems : ∀ items2 : List AtlasItem,
      loadItemsStartM m items2 = (m, (loadItemsOrder m items2).map
        (fun _ => none)) := by
    intro items2
    rw [loadItemsStartM, hfold (loadItemsOrder m items2) []]
    simp
  have hsources : ∀ ss : List String, loadSourcesStart m ss = (m, []) := by
    intro ss
    have hnone : ∀ s, findItemBySourceName m s = none := by
      intro s
      rw [findItemBySourceName, if_pos hr]
    rw [loadSourcesStart]
    have : ss.filterMap (fun s => findItemBySourceName m s) = [] := by
      induction ss with
      | nil => rfl
      | cons s rest ih => rw [List.filterMap_cons, hnone s, ih]
    rw [this, hitems []]
    have horder : loadItemsOrder m [] = [] := by
      rw [loadItemsOrder]
      split
      · rfl
      · rfl
    rw [horder]
    rfl
  refine ⟨?_, ?_, ?_, ?_, ?_, rfl, ?_, ?_, ?_, ?_, hsources sources, ?_, ?_,
    ?_, ?_, ?_, hsources m.priorities, ?_, ?_, ?_, ?_, ?_⟩
  · rw [setAtlas, if_pos hr]
  · rw [loadAtlasStart, if_pos hr]
  · rw [setLanguage, if_pos hr]
  · rw [setPackageByName, if_pos (Or.inl hr)]
  · rw [setLoadPath, if_pos hr]
  · rw [loadFileStart, if_pos hr]
  · rw [loadItemStart, if_pos hr]
  · rw [hitems items]
  · rw [hitems items]
    intro v hv
    obtain ⟨x, hx1, hx2⟩ := List.mem_map.mp hv
    exact hx2.symm
  · rw [loadPackageNameStart, if_pos hr]
  · rw [loadPackageNamesStart, if_pos hr]
  · rw [loadEverythingStart, if_pos hr]
  · rw [loadLanguageStart, if_pos hr]
  · rw [loadLanguagesStart, if_pos hr]
  · rw [disposeItem, if_pos hm]
  · rw [disposePackage, if_pos hm]
  · rw [disposePackages, if_pos hm]
  · rw [disposeLanguage, if_pos hm]
  · rw [dispose, if_pos hm]

/-- Witness for C9 (amended): concrete evaluations on the disposed
manager. -/
theorem disposed_ops_noop_witness :
    setAtlas mDisposed [] = mDisposed
  ∧ setLanguage mDisposed "en" = (mDisposed, false)
  ∧ loadFileStart mDisposed "24k.1ch.7" = (mDisposed, none, false)
  ∧ setPriorityList mDisposed ["hi"] =
      { mDisposed with priorities := ["hi"] }
  ∧ dispose mDisposed = mDisposed := by
  obtain ⟨h1, -, h3, -, -, h6, h7, -, -, -, -, -, -, -, -, -, -, -, -, -, -,
    h22⟩ := disposed_ops_noop mDisposed [] "en" "p" "q" ["hi"] "24k.1ch.7"
      hiItem [] (by decide)
  exact ⟨h1, h3, h7, h6, h22⟩

/-- C10.  Bulk loading never reorders the atlas: `loadItems` sorts the
fresh copy `[...items]` in place, so the array object handed in — in
particular `this.atlas[p]` as passed by `loadPackageName` — keeps its
element order, and the resolver's first-match answers over that array are
unchanged by any bulk load. -/
theorem loadItems_preserves_atlas_array (store : List (List AtlasItem))
    (id : Nat) (ps : List String) (s l : String)
    (hid : id < store.length) :
    (loadItemsArrays store id ps).1.getD id [] = store.getD id []
  ∧ findInPkg ((loadItemsArrays store id ps).1.getD id []) s l
      = findInPkg (store.getD id []) s l := by
  have harr : (loadItemsArrays store id ps).1.getD id [] =
      store.getD id [] := by
    rw [loadItemsArrays]
    split
    · dsimp only [sortItemsInPlace]
      rw [List.getD_eq_getElem?_getD, List.getD_eq_getElem?_getD]
      rw [List.getElem?_set_ne (by omega)]
      rw [List.getElem?_append_left hid]
    · rfl
  exact ⟨harr, by rw [harr]⟩

/-- A one-array store holding a two-item package, for the C10 witness. -/
def storeW : List (List AtlasItem) :=
  [[⟨"a", "A", 1, "_"⟩, ⟨"b", "B", 1, "_"⟩]]

/-- Witness for C10: loading the package with priority `["b"]` issues
`b` first but leaves the stored package array in its original order. -/
theorem loadItems_preserves_atlas_array_witness :
    (loadItemsArrays storeW 0 ["b"]).1.getD 0 [] = storeW.getD 0 []
  ∧ findInPkg ((loadItemsArrays storeW 0 ["b"]).1.getD 0 []) "a" "_"
      = findInPkg (storeW.getD 0 []) "a" "_" :=
  loadItems_preserves_atlas_array storeW 0 ["b"] "a" "_" (by decide)

end Scode
